import Mathlib

/-!
Verification of the core data-transformation pipeline of
`build-dynamic-application-security-testing` (`updater.py`).

Strings are shallowly embedded as `List Char` (`Str`).  The Python text
operations used by the core (`in`, `str.find`-style scanning, `str.replace`,
`str.endswith`, `str.upper`) are modelled as executable functions on `Str`.

The single regular expression of the program,
`re.sub(f"{start}.*{end}", f"{start}{block}{end}", content, flags=re.DOTALL)`
in `update_dockerfile`, is modelled with its full regex semantics: the `.`
inside `updater.py` in the pattern is a wildcard for any single character
(DOTALL), the `.*` is greedy, and the replacement string goes through
Python's replacement-template escape processing, which can rewrite the
block (a double backslash collapses, letter escapes convert, a `\g<0>`
reference expands to the matched text) or raise `re.error` (modelled as `none`) even when the
pattern has no match.  The detailed justification of the model's
first-start-match / last-end-marker skeleton is at the Block Patcher
section below.
-/

abbrev Str := List Char

/-- `occursAt pat s i` : the pattern `pat` occurs in `s` starting at index `i`
(Python `s[i:i+len(pat)] == pat`). -/
def occursAt (pat s : Str) (i : Nat) : Prop :=
  (s.drop i).take pat.length = pat

instance (pat s : Str) (i : Nat) : Decidable (occursAt pat s i) := by
  unfold occursAt; infer_instance

/-- Index of the first occurrence of `pat` in `s` (Python `s.find(pat)`,
`none` when absent). -/
def findIdx (pat : Str) : Str → Option Nat
  | [] => if pat = [] then some 0 else none
  | c :: rest =>
    if (c :: rest).take pat.length = pat then some 0
    else (findIdx pat rest).map (fun n => n + 1)

/-- Substring test: Python `pat in s`. -/
def containsSub (s pat : Str) : Bool :=
  (findIdx pat s).isSome

/-- Last index `j < bound` with `lo ≤ j` at which `pat` occurs in `s`
(scanning downward).  Models the end position a greedy `.*` backtracks to. -/
def lastOccBelow (pat s : Str) (lo : Nat) : Nat → Option Nat
  | 0 => none
  | k + 1 =>
    if lo ≤ k ∧ occursAt pat s k then some k
    else lastOccBelow pat s lo k

/-- Last occurrence of `pat` in `s` at an index `≥ lo`. -/
def lastOcc (pat s : Str) (lo : Nat) : Option Nat :=
  lastOccBelow pat s lo (s.length + 1)

/-- Python `s.endswith("\n")`. -/
def endsNl (s : Str) : Bool :=
  s.getLast? = some '\n'

/-- Worker for `replaceAll`; structurally recursive on a fuel bound so that
it evaluates by kernel reduction.  Every step consumes at least one
character of the text, so `s.length + 1` fuel always suffices. -/
def replaceAllAux (old new : Str) : Nat → Str → Str
  | _, [] => if old = [] then new else []
  | 0, s => s
  | f + 1, c :: rest =>
    if old ≠ [] ∧ (c :: rest).take old.length = old then
      new ++ replaceAllAux old new f ((c :: rest).drop old.length)
    else if old = [] then
      new ++ c :: replaceAllAux old new f rest
    else
      c :: replaceAllAux old new f rest

/-- Python `str.replace(old, new)`: replace every non-overlapping occurrence
of `old`, left to right; when `old` is empty, `new` is inserted before every
character and once at the end. -/
def replaceAll (old new s : Str) : Str :=
  replaceAllAux old new (s.length + 1) s

/-! ## Data model (`Dependency`, `Addon`, the parsed catalog) -/

/-- `Dependency` dataclass of `updater.py` (a `DependencyRef`). -/
structure Dependency where
  id : Str
  version : Str := []
deriving DecidableEq

/-- `Addon` dataclass of `updater.py`.  Empty string means "absent in
catalog" (`read_tag_value` returns `""` for a missing child tag). -/
structure Addon where
  name : Str
  date : Str := []
  file : Str := []
  hash : Str := []
  not_before_version : Str := []
  status : Str := []
  url : Str := []
  version : Str := []
  dependencies : List Dependency := []
deriving DecidableEq

/-- One parsed catalog element `addon_<name>`: the text of its metadata
child tags (empty when the child tag is missing) and the
`dependencies/addons/addon` children in document order (empty when that
path is absent). -/
structure CatEntry where
  name : Str
  date : Str := []
  file : Str := []
  hash : Str := []
  not_before_version : Str := []
  status : Str := []
  url : Str := []
  version : Str := []
  deps : List Dependency := []
deriving DecidableEq

/-- The parsed XML catalog, in document order. -/
abbrev Catalog := List CatEntry

/-- `zap.getElementsByTagName("addon_" + name)[0]`: the first catalog
element whose tag is `addon_<name>` (tag construction is injective in the
name, so the catalog is keyed by the short name). -/
def lookupAddon (cat : Catalog) (n : Str) : Option CatEntry :=
  cat.find? (fun e => decide (e.name = n))

/-! ## Block Renderer (`generate_dockerfile_block`) -/

/-- Python `str.upper()` (addon names are ASCII). -/
def upperStr (s : Str) : Str := s.map Char.toUpper

/-- `f"${{{addon.name.upper()}_VERSION}}"`. -/
def version_string (a : Addon) : Str :=
  "$\x7b".toList ++ upperStr a.name ++ "_VERSION\x7d".toList

/-- `f"ARG {addon.name.upper()}_VERSION={addon.version}"`. -/
def argLine (a : Addon) : Str :=
  "ARG ".toList ++ upperStr a.name ++ "_VERSION=".toList ++ a.version

/-- `f"        {addon.name}-{addon.status}-*.zap \\"`. -/
def rmLine (a : Addon) : Str :=
  "        ".toList ++ a.name ++ "-".toList ++ a.status ++ "-*.zap \\".toList

/-- `f"        {addon.url.replace(str(addon.version), version_string)}"`. -/
def wgetLine (a : Addon) : Str :=
  "        ".toList ++ replaceAll a.version (version_string a) a.url

/-- The loop of `generate_dockerfile_block`: builds `args_lines`,
`rm_lines` and `wget_lines`, appending the separators (`"\n"`, `"\n"`,
`" \\\n"`) after every addon except the last (`index < max_index`). -/
def blockLines : List Addon → Str × Str × Str
  | [] => ([], [], [])
  | [a] => (argLine a, rmLine a, wgetLine a)
  | a :: b :: rest =>
    let (x, y, z) := blockLines (b :: rest)
    (argLine a ++ '\n' :: x, rmLine a ++ '\n' :: y, wgetLine a ++ " \\\n".toList ++ z)

/-- `generate_dockerfile_block(addons)`. -/
def generate_dockerfile_block (addons : List Addon) : Str :=
  if addons.length = 0 then []
  else
    let (args_lines, rm_lines, wget_lines) := blockLines addons
    "\nWORKDIR /zap/plugin\n".toList ++ args_lines
      ++ "\nRUN rm --force \\\n".toList ++ rm_lines
      ++ "\n    && wget --quiet \\\n".toList ++ wget_lines
      ++ "\n".toList

/-! ## Block Patcher (`update_dockerfile`, `write_dockerfile`)

`update_dockerfile` is
`re.sub(f"{start}.*{end}", f"{start}{block}{end}", content, flags=re.DOTALL)`.
Both regex-specific behaviours of that call are modelled.

Pattern side.  The only metacharacters in the pattern are the `.` inside
`updater.py` (under DOTALL a wildcard for ANY one character, newline
included) and the greedy `.*`.  A start-sentinel match at `i` is therefore
the literal 26 characters `# Autogenerated by updater`, one arbitrary
character, then the literal 25 characters `py - DO NOT EDIT MANUALLY`
(`startMatchAt`).  The whole pattern matches somewhere iff an end sentinel
occurs at or after `i + 52` for `i` the FIRST start-sentinel match: a match
beginning at any later position would need an end sentinel still further
right, so when the first start match has none the regex has no match at all
and `re.sub` returns the content unchanged.  The greedy `.*` runs the match
to the LAST end-sentinel occurrence, after which no end sentinel remains,
so `re.sub` performs at most one substitution.

Replacement side.  Python parses the replacement string as a template
(`sre_parse.parse_template`) BEFORE looking for a match, so a malformed
template raises `re.error` (modelled `none`) even when nothing matches:
a double backslash collapses to one; the letter escapes `a b f n r t v`
after a backslash become the control characters 7 8 12 10 13 9 11;
`\g<0>` (or `\g<00...>`) becomes a reference to group 0, the whole matched
text; any other `\g<...>` raises (the pattern defines no groups and no
names); a backslash before any other ASCII letter raises (`bad escape`);
`\0` with up to two more octal digits, and a three-octal-digit escape
`\ooo` (raising above `0o377`), become characters; `\1`..`\99` group
references raise (no groups); a backslash before any other character is
kept as the two characters; a trailing lone backslash raises.  (Python
accepts a few more spellings of the number 0 inside `\g<...>` - signs,
spaces, underscores via `int()` - which are not modelled; they only affect
which malformed group names raise rather than reference group 0.)
-/

/-- The start sentinel of the managed region, as written in the
replacement string (where its `.` is an ordinary character). -/
def autogenerated_start : Str :=
  "# Autogenerated by updater.py - DO NOT EDIT MANUALLY".toList

/-- The end sentinel of the managed region. -/
def autogenerated_end : Str :=
  "# Autogenerated END".toList

/-- Lines 432-433 of `updater.py`: append one `"\n"` when the block does
not already end with one. -/
def normalizeBlock (block : Str) : Str :=
  if endsNl block then block else block ++ ['\n']

/-- The 26 characters of the start sentinel before its `.` wildcard. -/
def startPat1 : Str := autogenerated_start.take 26

/-- The 25 characters of the start sentinel after its `.` wildcard. -/
def startPat2 : Str := autogenerated_start.drop 27

/-- The start-sentinel pattern matches at `i`: its 26-character prefix at
`i`, one arbitrary character (the `.` wildcard under DOTALL), then its
25-character suffix at `i + 27`.  The suffix occurrence forces
`i + 52 ≤ s.length`, so the wildcard position exists. -/
def startMatchAt (s : Str) (i : Nat) : Prop :=
  occursAt startPat1 s i ∧ occursAt startPat2 s (i + 27)

instance (s : Str) (i : Nat) : Decidable (startMatchAt s i) := by
  unfold startMatchAt; infer_instance

/-- First index `≥ i` (scanning `n` positions upward) at which the
start-sentinel pattern matches. -/
def firstMatchAux (s : Str) : Nat → Nat → Option Nat
  | 0, _ => none
  | n + 1, i => if startMatchAt s i then some i else firstMatchAux s n (i + 1)

/-- Leftmost match of the start-sentinel pattern in `s`. -/
def firstStartMatch (s : Str) : Option Nat :=
  firstMatchAux s (s.length + 1) 0

/-- One parsed piece of Python's replacement template: a literal character
or a reference to group 0 (the whole matched text). -/
inductive TmplItem where
  | ch (c : Char)
  | grp
deriving DecidableEq

def isAsciiLetterB (c : Char) : Bool :=
  ('a' ≤ c && c ≤ 'z') || ('A' ≤ c && c ≤ 'Z')

def isDigitB (c : Char) : Bool := '0' ≤ c && c ≤ '9'

def isOctB (c : Char) : Bool := '0' ≤ c && c ≤ '7'

def octVal (c : Char) : Nat := c.toNat - 48

/-- `sre_parse.parse_template` for this program's pattern (which has no
capturing groups and no group names), per the description in the section
header; `none` is a raised `re.error`/`IndexError`.  Fuelled on the length
of the string so that it evaluates by kernel reduction; every step consumes
at least one character, so `s.length + 1` fuel always suffices. -/
def parseTmplAux : Nat → Str → Option (List TmplItem)
  | _, [] => some []
  | 0, _ => none
  | f + 1, c :: rest =>
    if c ≠ '\\' then
      (parseTmplAux f rest).map (fun items => TmplItem.ch c :: items)
    else
      match rest with
      | [] => none
      | e :: rest2 =>
        if e = '\\' then
          (parseTmplAux f rest2).map (fun items => TmplItem.ch '\\' :: items)
        else if e = 'g' then
          match rest2 with
          | '<' :: rest3 =>
            let name := rest3.takeWhile (fun c2 => c2 ≠ '>')
            match rest3.drop name.length with
            | '>' :: rest4 =>
              if name ≠ [] ∧ name.all (fun c2 => decide (c2 = '0')) then
                (parseTmplAux f rest4).map (fun items => TmplItem.grp :: items)
              else none
            | _ => none
          | _ => none
        else if e = 'a' then
          (parseTmplAux f rest2).map (fun items => TmplItem.ch (Char.ofNat 7) :: items)
        else if e = 'b' then
          (parseTmplAux f rest2).map (fun items => TmplItem.ch (Char.ofNat 8) :: items)
        else if e = 'f' then
          (parseTmplAux f rest2).map (fun items => TmplItem.ch (Char.ofNat 12) :: items)
        else if e = 'n' then
          (parseTmplAux f rest2).map (fun items => TmplItem.ch (Char.ofNat 10) :: items)
        else if e = 'r' then
          (parseTmplAux f rest2).map (fun items => TmplItem.ch (Char.ofNat 13) :: items)
        else if e = 't' then
          (parseTmplAux f rest2).map (fun items => TmplItem.ch (Char.ofNat 9) :: items)
        else if e = 'v' then
          (parseTmplAux f rest2).map (fun items => TmplItem.ch (Char.ofNat 11) :: items)
        else if e = '0' then
          match rest2 with
          | d1 :: rest3 =>
            if isOctB d1 then
              match rest3 with
              | d2 :: rest4 =>
                if isOctB d2 then
                  (parseTmplAux f rest4).map
                    (fun items => TmplItem.ch (Char.ofNat (octVal d1 * 8 + octVal d2)) :: items)
                else
                  (parseTmplAux f rest3).map
                    (fun items => TmplItem.ch (Char.ofNat (octVal d1)) :: items)
              | [] =>
                (parseTmplAux f rest3).map
                  (fun items => TmplItem.ch (Char.ofNat (octVal d1)) :: items)
            else
              (parseTmplAux f rest2).map (fun items => TmplItem.ch (Char.ofNat 0) :: items)
          | [] => (parseTmplAux f rest2).map (fun items => TmplItem.ch (Char.ofNat 0) :: items)
        else if isDigitB e then
          match rest2 with
          | d2 :: rest3 =>
            if isDigitB d2 then
              match rest3 with
              | d3 :: rest4 =>
                if isOctB e ∧ isOctB d2 ∧ isOctB d3 then
                  if octVal e * 64 + octVal d2 * 8 + octVal d3 > 255 then none
                  else
                    (parseTmplAux f rest4).map
                      (fun items =>
                        TmplItem.ch (Char.ofNat (octVal e * 64 + octVal d2 * 8 + octVal d3))
                          :: items)
                else none
              | [] => none
            else none
          | [] => none
        else if isAsciiLetterB e then none
        else
          (parseTmplAux f rest2).map
            (fun items => TmplItem.ch '\\' :: TmplItem.ch e :: items)

/-- Parse a replacement template. -/
def parseTmpl (s : Str) : Option (List TmplItem) :=
  parseTmplAux (s.length + 1) s

/-- Expand a parsed template against the matched text (group 0). -/
def expandTmpl : List TmplItem → Str → Str
  | [], _ => []
  | TmplItem.ch c :: rest, m => c :: expandTmpl rest m
  | TmplItem.grp :: rest, m => m ++ expandTmpl rest m

/-- The all-literal template of a string. -/
def litItems (s : Str) : List TmplItem := s.map TmplItem.ch

/-- `update_dockerfile(dockerfile_content, dockerfile_block)` - the full
`re.sub` call: parse the replacement template (a malformed template raises
regardless of matching, modelled `none`), find the leftmost start-pattern
match, run the greedy `.*` to the last end sentinel at or after its end,
and replace the matched span by the expanded template (group 0 = the
matched span itself). -/
def update_dockerfile (content block : Str) : Option Str :=
  match parseTmpl (autogenerated_start ++ normalizeBlock block ++ autogenerated_end) with
  | none => none
  | some items =>
    match firstStartMatch content with
    | none => some content
    | some i =>
      match lastOcc autogenerated_end content (i + autogenerated_start.length) with
      | none => some content
      | some j =>
        some (content.take i
          ++ expandTmpl items ((content.take (j + autogenerated_end.length)).drop i)
          ++ content.drop (j + autogenerated_end.length))

/-- The sentinel pattern has a match in `content`: a start-sentinel match
(wildcard included) followed, at or after its end, by an end sentinel. -/
def hasMatchB (content : Str) : Bool :=
  match firstStartMatch content with
  | none => false
  | some i => (lastOcc autogenerated_end content (i + autogenerated_start.length)).isSome

/-- The spec's `isUpToDate(existingContent, candidateBlock)`: line 314 of
`updater.py` computes `needs_updating = dockerfile_block not in
dockerfile_content`; `isUpToDate` is its negation. -/
def isUpToDate (content block : Str) : Bool :=
  containsSub content block

/-- `write_dockerfile(addons, path)` with the file contents made explicit:
the new file contents and the `needs_updating` change signal; `none` when
the `re.sub` call raises. -/
def write_dockerfile (addons : List Addon) (content : Str) : Option (Str × Bool) :=
  let dockerfile_block := generate_dockerfile_block addons
  let needs_updating := ! isUpToDate content dockerfile_block
  if needs_updating then
    (update_dockerfile content dockerfile_block).map (fun c => (c, true))
  else
    some (content, false)

/-! ## Correctness lemmas for the string-search primitives -/

theorem findIdx_eq_some (pat : Str) :
    ∀ (s : Str) (i : Nat), findIdx pat s = some i →
      occursAt pat s i ∧ ∀ k, k < i → ¬ occursAt pat s k := by
  intro s
  induction s with
  | nil =>
    intro i h
    unfold findIdx at h
    split at h
    · rename_i hpat
      cases h
      refine ⟨?_, fun k hk => absurd hk (Nat.not_lt_zero k)⟩
      simp [occursAt, hpat]
    · cases h
  | cons c rest ih =>
    intro i h
    unfold findIdx at h
    split at h
    · rename_i hocc
      cases h
      exact ⟨hocc, fun k hk => absurd hk (Nat.not_lt_zero k)⟩
    · rename_i hnocc
      rcases Option.map_eq_some'.mp h with ⟨i', hi', rfl⟩
      obtain ⟨h1, h2⟩ := ih i' hi'
      refine ⟨h1, ?_⟩
      intro k hk
      match k with
      | 0 => exact hnocc
      | k' + 1 => exact h2 k' (Nat.lt_of_succ_lt_succ hk)

theorem findIdx_isSome_of_occursAt (pat : Str) :
    ∀ (s : Str) (k : Nat), occursAt pat s k → (findIdx pat s).isSome = true := by
  intro s
  induction s with
  | nil =>
    intro k h
    have : pat = [] := by simpa [occursAt] using h.symm
    simp [findIdx, this]
  | cons c rest ih =>
    intro k h
    unfold findIdx
    split
    · rfl
    · rename_i hnocc
      match k with
      | 0 => exact absurd h hnocc
      | k' + 1 =>
        have := ih k' h
        simp_all

theorem containsSub_append_mid (L R pat : Str) :
    containsSub (L ++ pat ++ R) pat = true := by
  have hocc : occursAt pat (L ++ pat ++ R) L.length := by
    unfold occursAt
    rw [List.append_assoc, List.drop_left L (pat ++ R), List.take_left pat R]
  exact findIdx_isSome_of_occursAt pat _ L.length hocc

theorem lastOccBelow_eq_some (pat s : Str) (lo : Nat) :
    ∀ (n j : Nat), lastOccBelow pat s lo n = some j →
      lo ≤ j ∧ j < n ∧ occursAt pat s j ∧
        ∀ k, j < k → k < n → ¬ occursAt pat s k := by
  intro n
  induction n with
  | zero => intro j h; cases h
  | succ m ih =>
    intro j h
    unfold lastOccBelow at h
    split at h
    · rename_i hcond
      injection h with h
      subst h
      exact ⟨hcond.1, Nat.lt_succ_self _, hcond.2,
        fun k hk1 hk2 => absurd hk1 (by omega)⟩
    · rename_i hcond
      obtain ⟨h1, h2, h3, h4⟩ := ih j h
      refine ⟨h1, Nat.lt_succ_of_lt h2, h3, ?_⟩
      intro k hk1 hk2
      rcases Nat.lt_succ_iff_lt_or_eq.mp hk2 with hk | rfl
      · exact h4 k hk1 hk
      · intro hooc
        exact hcond ⟨Nat.le_trans h1 (Nat.le_of_lt hk1), hooc⟩

theorem not_occursAt_of_length_lt (pat s : Str) (k : Nat)
    (hpat : pat ≠ []) (hk : s.length < k) : ¬ occursAt pat s k := by
  intro h
  unfold occursAt at h
  rw [List.drop_eq_nil_of_le (Nat.le_of_lt hk)] at h
  simp at h
  exact hpat h

theorem lastOcc_eq_some (pat s : Str) (lo j : Nat) (hpat : pat ≠ [])
    (h : lastOcc pat s lo = some j) :
    lo ≤ j ∧ occursAt pat s j ∧ ∀ k, j < k → ¬ occursAt pat s k := by
  obtain ⟨h1, _, h3, h4⟩ := lastOccBelow_eq_some pat s lo (s.length + 1) j h
  refine ⟨h1, h3, ?_⟩
  intro k hk
  by_cases hks : k < s.length + 1
  · exact h4 k hk hks
  · exact not_occursAt_of_length_lt pat s k hpat (by omega)

theorem firstMatchAux_eq_some (s : Str) :
    ∀ (n i j : Nat), firstMatchAux s n i = some j →
      i ≤ j ∧ startMatchAt s j ∧ ∀ k, i ≤ k → k < j → ¬ startMatchAt s k := by
  intro n
  induction n with
  | zero => intro i j h; cases h
  | succ m ih =>
    intro i j h
    unfold firstMatchAux at h
    split at h
    · rename_i hm
      injection h with h
      subst h
      exact ⟨Nat.le_refl _, hm, fun k hk1 hk2 => absurd hk1 (by omega)⟩
    · rename_i hm
      obtain ⟨h1, h2, h3⟩ := ih (i + 1) j h
      refine ⟨by omega, h2, ?_⟩
      intro k hk1 hk2
      rcases Nat.eq_or_lt_of_le hk1 with rfl | hk
      · exact hm
      · exact h3 k (by omega) hk2

theorem firstStartMatch_eq_some (s : Str) (i : Nat)
    (h : firstStartMatch s = some i) :
    startMatchAt s i ∧ ∀ k, k < i → ¬ startMatchAt s k := by
  obtain ⟨_, h2, h3⟩ := firstMatchAux_eq_some s (s.length + 1) 0 i h
  exact ⟨h2, fun k hk => h3 k (Nat.zero_le k) hk⟩

theorem expandTmpl_lit (m : Str) : ∀ s : Str, expandTmpl (litItems s) m = s := by
  intro s
  induction s with
  | nil => rfl
  | cons c rest ih =>
    show expandTmpl (TmplItem.ch c :: litItems rest) m = c :: rest
    simp only [expandTmpl]
    rw [ih]

/-- Unfolding lemma: a malformed replacement template makes the call raise. -/
theorem update_none_of_parse (content block : Str)
    (hpt : parseTmpl (autogenerated_start ++ normalizeBlock block
        ++ autogenerated_end) = none) :
    update_dockerfile content block = none := by
  unfold update_dockerfile
  rw [hpt]

/-- Unfolding lemma: well-formed template, no start-pattern match. -/
theorem update_of_noStart (content block : Str) (items : List TmplItem)
    (hpt : parseTmpl (autogenerated_start ++ normalizeBlock block
        ++ autogenerated_end) = some items)
    (hf : firstStartMatch content = none) :
    update_dockerfile content block = some content := by
  unfold update_dockerfile
  split
  · rename_i heq
    rw [hpt] at heq
    cases heq
  · rename_i items2 heq
    rw [hpt] at heq
    injection heq with heq
    subst heq
    split
    · rfl
    · rename_i i2 heq2
      rw [hf] at heq2
      cases heq2

/-- Unfolding lemma: well-formed template, a start-pattern match but no end
sentinel after it. -/
theorem update_of_noEnd (content block : Str) (items : List TmplItem) (i : Nat)
    (hpt : parseTmpl (autogenerated_start ++ normalizeBlock block
        ++ autogenerated_end) = some items)
    (hf : firstStartMatch content = some i)
    (hl : lastOcc autogenerated_end content (i + autogenerated_start.length) = none) :
    update_dockerfile content block = some content := by
  unfold update_dockerfile
  split
  · rename_i heq
    rw [hpt] at heq
    cases heq
  · rename_i items2 heq
    rw [hpt] at heq
    injection heq with heq
    subst heq
    split
    · rfl
    · rename_i i2 heq2
      rw [hf] at heq2
      injection heq2 with heq2
      subst heq2
      split
      · rfl
      · rename_i j2 heq3
        rw [hl] at heq3
        cases heq3

/-- Unfolding lemma: well-formed template and a full pattern match - the
substitution case of `re.sub`. -/
theorem update_dockerfile_eq (content block : Str) (items : List TmplItem)
    (i j : Nat)
    (hpt : parseTmpl (autogenerated_start ++ normalizeBlock block
        ++ autogenerated_end) = some items)
    (hf : firstStartMatch content = some i)
    (hl : lastOcc autogenerated_end content (i + autogenerated_start.length) = some j) :
    update_dockerfile content block
      = some (content.take i
          ++ expandTmpl items ((content.take (j + autogenerated_end.length)).drop i)
          ++ content.drop (j + autogenerated_end.length)) := by
  unfold update_dockerfile
  split
  · rename_i heq
    rw [hpt] at heq
    cases heq
  · rename_i items2 heq
    rw [hpt] at heq
    injection heq with heq
    subst heq
    split
    · rename_i heq2
      rw [hf] at heq2
      cases heq2
    · rename_i i2 heq2
      rw [hf] at heq2
      injection heq2 with heq2
      subst heq2
      split
      · rename_i heq3
        rw [hl] at heq3
        cases heq3
      · rename_i j2 heq3
        rw [hl] at heq3
        injection heq3 with heq3
        subst heq3
        rfl

/-! ## Claims about the Block Patcher -/

/-- C3 (amended): when the sentinel pattern (its `.` wildcard included) has
no match in the content, `update_dockerfile` never modifies the content:
for a block whose replacement template is well-formed the content is
returned unchanged - no region is invented, but no error is raised either -
and for a malformed template (e.g. a backslash before an ASCII letter
anywhere in the block) `re.sub` raises even though nothing matches. -/
theorem claim_C3_thm (content block : Str) (h : hasMatchB content = false) :
    update_dockerfile content block
      = match parseTmpl (autogenerated_start ++ normalizeBlock block
            ++ autogenerated_end) with
        | none => none
        | some _ => some content := by
  unfold hasMatchB at h
  cases hpt : parseTmpl (autogenerated_start ++ normalizeBlock block
      ++ autogenerated_end) with
  | none => rw [update_none_of_parse content block hpt]
  | some items =>
    cases hf : firstStartMatch content with
    | none => rw [update_of_noStart content block items hpt hf]
    | some i =>
      rw [hf] at h
      simp only at h
      cases hl : lastOcc autogenerated_end content (i + autogenerated_start.length) with
      | none => rw [update_of_noEnd content block items i hpt hf hl]
      | some j => rw [hl] at h; simp at h

set_option maxRecDepth 40000 in
set_option maxHeartbeats 2000000 in
/-- C3 witness: a concrete content without a pattern match and a concrete
well-formed block: the patch succeeds with the content unchanged. -/
theorem claim_C3_thm_witness :
    hasMatchB ("FROM owasp/zap2docker-stable:2.9.0\n".toList) = false ∧
      update_dockerfile ("FROM owasp/zap2docker-stable:2.9.0\n".toList) ("NEW\n".toList)
        = match parseTmpl (autogenerated_start ++ normalizeBlock ("NEW\n".toList)
              ++ autogenerated_end) with
          | none => none
          | some _ => some ("FROM owasp/zap2docker-stable:2.9.0\n".toList) :=
  ⟨by decide, claim_C3_thm _ _ (by decide)⟩

set_option maxRecDepth 40000 in
set_option maxHeartbeats 2000000 in
/-- C3 counterexample: the claim says patching a content without a bounded
sentinel region fails with a fatal error and in particular "does not
silently leave the file unchanged"; the code silently succeeds with the
content unchanged. -/
theorem claim_C3_cex :
    update_dockerfile ("FROM zap\nRUN true\n".toList) ("NEW\n".toList)
      = some ("FROM zap\nRUN true\n".toList) := by decide

/-- C2 (amended): for every content in which the sentinel pattern has a
match and every block whose replacement template is pure literal text
(Python's template processing maps the replacement to itself; this holds
in particular for every block the renderer emits, whose backslashes all
precede line breaks), patching succeeds and the up-to-date check on the
result is true: the patched content contains the block verbatim. -/
theorem claim_C2_thm (content block : Str) (hm : hasMatchB content = true)
    (ht : parseTmpl (autogenerated_start ++ normalizeBlock block ++ autogenerated_end)
      = some (litItems (autogenerated_start ++ normalizeBlock block
          ++ autogenerated_end))) :
    ∃ c2, update_dockerfile content block = some c2 ∧ isUpToDate c2 block = true := by
  unfold hasMatchB at hm
  cases hf : firstStartMatch content with
  | none => rw [hf] at hm; simp at hm
  | some i =>
    rw [hf] at hm
    simp only at hm
    cases hl : lastOcc autogenerated_end content (i + autogenerated_start.length) with
    | none => rw [hl] at hm; simp at hm
    | some j =>
      have hupd : update_dockerfile content block =
          some (content.take i
            ++ (autogenerated_start ++ normalizeBlock block ++ autogenerated_end)
            ++ content.drop (j + autogenerated_end.length)) := by
        rw [update_dockerfile_eq content block _ i j ht hf hl, expandTmpl_lit]
      refine ⟨_, hupd, ?_⟩
      unfold isUpToDate
      unfold normalizeBlock
      by_cases hnl : endsNl block = true
      · rw [if_pos hnl]
        have := containsSub_append_mid (content.take i ++ autogenerated_start)
          (autogenerated_end ++ content.drop (j + autogenerated_end.length)) block
        simpa [List.append_assoc] using this
      · rw [if_neg hnl]
        have := containsSub_append_mid (content.take i ++ autogenerated_start)
          ('\n' :: (autogenerated_end ++ content.drop (j + autogenerated_end.length))) block
        simpa [List.append_assoc] using this

set_option maxRecDepth 40000 in
set_option maxHeartbeats 2000000 in
/-- C2 counterexample: for content without a sentinel-pattern match the
claimed idempotence law fails - the patch succeeds as a silent no-op and
the block is not a substring of the result. -/
theorem claim_C2_cex :
    update_dockerfile ([] : Str) ("x".toList) = some [] ∧
      isUpToDate ([] : Str) ("x".toList) = false := by
  constructor
  · decide
  · decide

set_option maxRecDepth 40000 in
set_option maxHeartbeats 2000000 in
/-- C2 witness: a concrete content with a region and a concrete block. -/
theorem claim_C2_thm_witness :
    hasMatchB (autogenerated_start ++ "\nOLD\n".toList ++ autogenerated_end) = true ∧
      parseTmpl (autogenerated_start ++ normalizeBlock ("NEW".toList) ++ autogenerated_end)
        = some (litItems (autogenerated_start ++ normalizeBlock ("NEW".toList)
            ++ autogenerated_end)) ∧
      ∃ c2, update_dockerfile
          (autogenerated_start ++ "\nOLD\n".toList ++ autogenerated_end) ("NEW".toList)
          = some c2 ∧ isUpToDate c2 ("NEW".toList) = true :=
  ⟨by decide, by decide, claim_C2_thm _ _ (by decide) (by decide)⟩

/-- A content with two sentinel regions separated by unmanaged text, used to
exhibit the greedy span of the `re.sub` pattern. -/
def twoRegionContent : Str :=
  "pre\n".toList ++ autogenerated_start ++ "\nA\n".toList ++ autogenerated_end
    ++ "\nMID\n".toList ++ autogenerated_start ++ "\nB\n".toList ++ autogenerated_end
    ++ "\npost".toList

set_option maxRecDepth 100000 in
set_option maxHeartbeats 4000000 in
/-- C5 counterexample: with two sentinel regions, the patch does not stop at
the first end marker: the text between the regions and the second region are
swallowed, so the result differs from the shortest-span replacement the
claim describes. -/
theorem claim_C5_cex :
    update_dockerfile twoRegionContent ("NEW".toList)
        = some ("pre\n".toList ++ autogenerated_start ++ "NEW\n".toList
            ++ autogenerated_end ++ "\npost".toList) ∧
      "pre\n".toList ++ autogenerated_start ++ "NEW\n".toList ++ autogenerated_end
          ++ "\npost".toList
        ≠ "pre\n".toList ++ autogenerated_start ++ "NEW\n".toList ++ autogenerated_end
          ++ "\nMID\n".toList ++ autogenerated_start ++ "\nB\n".toList
          ++ autogenerated_end ++ "\npost".toList := by
  constructor
  · decide
  · decide

/-- C5 (amended): the patch replaces the span from the first match of the
start-sentinel pattern - whose `.` is a regex wildcard, so a pseudo
sentinel differing at that one position also begins the span - to the LAST
end sentinel at or after its end (the greedy `.*`): for a block whose
replacement template is pure literal text, the matched span is replaced by
the literal start sentinel, the normalized block and the end sentinel, and
every byte before the first pattern match and after the last end sentinel
is unchanged; sentinel pairs inside that maximal span are consumed. -/
theorem claim_C5_thm (content block : Str) (i j : Nat)
    (hf : firstStartMatch content = some i)
    (hl : lastOcc autogenerated_end content (i + autogenerated_start.length) = some j)
    (ht : parseTmpl (autogenerated_start ++ normalizeBlock block ++ autogenerated_end)
      = some (litItems (autogenerated_start ++ normalizeBlock block
          ++ autogenerated_end))) :
    (startMatchAt content i ∧ ∀ k, k < i → ¬ startMatchAt content k) ∧
    (i + autogenerated_start.length ≤ j ∧ occursAt autogenerated_end content j ∧
      ∀ k, j < k → ¬ occursAt autogenerated_end content k) ∧
    update_dockerfile content block =
      some (content.take i
        ++ (autogenerated_start ++ normalizeBlock block ++ autogenerated_end)
        ++ content.drop (j + autogenerated_end.length)) := by
  refine ⟨firstStartMatch_eq_some content i hf, ?_, ?_⟩
  · exact lastOcc_eq_some _ _ _ _ (by decide) hl
  · rw [update_dockerfile_eq content block _ i j ht hf hl, expandTmpl_lit]

set_option maxRecDepth 100000 in
set_option maxHeartbeats 4000000 in
/-- C5 witness: the two-region content instantiates the amended theorem. -/
theorem claim_C5_thm_witness :
    firstStartMatch twoRegionContent = some 4 ∧
      lastOcc autogenerated_end twoRegionContent (4 + autogenerated_start.length)
        = some 138 ∧
      update_dockerfile twoRegionContent ("NEW".toList) =
        some (twoRegionContent.take 4
          ++ (autogenerated_start ++ normalizeBlock ("NEW".toList) ++ autogenerated_end)
          ++ twoRegionContent.drop (138 + autogenerated_end.length)) :=
  ⟨by decide, by decide,
    (claim_C5_thm twoRegionContent ("NEW".toList) 4 138
      (by decide) (by decide) (by decide)).2.2⟩

set_option maxRecDepth 40000 in
set_option maxHeartbeats 2000000 in
/-- C6 counterexample: a candidate block that already ends in two line breaks
is placed between the markers unchanged, so the patched region ends in two
line breaks, not exactly one as the claim states. -/
theorem claim_C6_cex :
    update_dockerfile
        (autogenerated_start ++ "\nOLD\n".toList ++ autogenerated_end)
        ("X\n\n".toList)
      = some (autogenerated_start ++ "X\n\n".toList ++ autogenerated_end) ∧
      autogenerated_start ++ "X\n\n".toList ++ autogenerated_end
        ≠ autogenerated_start ++ "X\n".toList ++ autogenerated_end := by
  constructor
  · decide
  · decide

/-- C6 (amended): for every block whose replacement template is pure
literal text (in particular every block the renderer emits), the text
placed strictly between the markers is the block with exactly one line
break appended when it lacks one, and the block unchanged when it already
ends in one or more line breaks (extra trailing breaks are preserved, not
collapsed to one); blocks outside this set are altered by Python's
template-escape processing or abort the call with `re.error`. -/
theorem claim_C6_thm (content block : Str) (i j : Nat)
    (hf : firstStartMatch content = some i)
    (hl : lastOcc autogenerated_end content (i + autogenerated_start.length) = some j)
    (ht : parseTmpl (autogenerated_start ++ normalizeBlock block ++ autogenerated_end)
      = some (litItems (autogenerated_start ++ normalizeBlock block
          ++ autogenerated_end))) :
    ∃ b : Str,
      update_dockerfile content block =
        some (content.take i ++ (autogenerated_start ++ b ++ autogenerated_end)
          ++ content.drop (j + autogenerated_end.length)) ∧
      (endsNl block = false → b = block ++ ['\n']) ∧
      (endsNl block = true → b = block) := by
  refine ⟨normalizeBlock block, ?_, ?_, ?_⟩
  · rw [update_dockerfile_eq content block _ i j ht hf hl, expandTmpl_lit]
  · intro hb; simp [normalizeBlock, hb]
  · intro hb; simp [normalizeBlock, hb]

set_option maxRecDepth 40000 in
set_option maxHeartbeats 2000000 in
/-- C6 witness: a block without a trailing line break gains exactly one. -/
theorem claim_C6_thm_witness :
    firstStartMatch (autogenerated_start ++ "\nOLD\n".toList ++ autogenerated_end)
        = some 0 ∧
      ∃ b : Str,
        update_dockerfile (autogenerated_start ++ "\nOLD\n".toList ++ autogenerated_end)
            ("Y".toList)
          = some ((autogenerated_start ++ "\nOLD\n".toList ++ autogenerated_end).take 0
              ++ (autogenerated_start ++ b ++ autogenerated_end)
              ++ (autogenerated_start ++ "\nOLD\n".toList ++ autogenerated_end).drop
                  (57 + autogenerated_end.length)) ∧
          (endsNl ("Y".toList) = false → b = "Y".toList ++ ['\n']) ∧
          (endsNl ("Y".toList) = true → b = "Y".toList) :=
  ⟨by decide, claim_C6_thm _ _ 0 57 (by decide) (by decide) (by decide)⟩


/-! ## Claims about the Block Renderer -/

theorem findIdx_nil : ∀ s : Str, findIdx [] s = some 0 := by
  intro s
  cases s <;> simp [findIdx]

/-- C9: rendering the empty `ResolvedSet` returns the empty string; the
up-to-date check on the empty block holds for any existing content (the
empty block is a substring of everything), so `write_dockerfile` leaves the
content unchanged and signals `false` (no change). -/
theorem claim_C9_thm (content : Str) :
    generate_dockerfile_block [] = [] ∧
      isUpToDate content [] = true ∧
      write_dockerfile [] content = some (content, false) := by
  have hup : isUpToDate content [] = true := by
    simp [isUpToDate, containsSub, findIdx_nil]
  refine ⟨rfl, hup, ?_⟩
  simp [write_dockerfile, generate_dockerfile_block, hup]

/-- The addon of the C8 scenario: `foo`, version `3.1`,
url `https://x/foo-3.1.zap`. -/
def fooAddon : Addon :=
  { name := "foo".toList
    status := "release".toList
    url := "https://x/foo-3.1.zap".toList
    version := "3.1".toList }

set_option maxRecDepth 40000 in
/-- C8: the rendered block for `fooAddon` contains the declaration line
`ARG FOO_VERSION=3.1` and a fetch line whose URL is
`https://x/foo-$\x7bFOO_VERSION\x7d.zap` (the literal version substring of the
URL replaced by a reference to the declaration identifier). -/
theorem claim_C8_thm :
    containsSub (generate_dockerfile_block [fooAddon]) ("ARG FOO_VERSION=3.1".toList)
        = true ∧
      containsSub (generate_dockerfile_block [fooAddon])
          ("https://x/foo-$\x7bFOO_VERSION\x7d.zap".toList) = true := by
  constructor
  · decide
  · decide

/-- Modelled from the claim's words (C10): the result of inserting `v`
before every character of `s` and once after its last character. -/
def insertAround (v : Str) : Str → Str
  | [] => v
  | c :: rest => v ++ c :: insertAround v rest

theorem replaceAllAux_nil_old (new : Str) :
    ∀ (f : Nat) (s : Str), s.length < f →
      replaceAllAux [] new f s = insertAround new s := by
  intro f
  induction f with
  | zero => intro s h; omega
  | succ g ih =>
    intro s h
    match s with
    | [] => simp [replaceAllAux, insertAround]
    | c :: rest =>
      have hr : rest.length < g := by
        simp only [List.length_cons] at h
        omega
      simp [replaceAllAux, insertAround, ih rest hr]

theorem insertAround_length (v : Str) :
    ∀ s : Str, (insertAround v s).length = v.length * (s.length + 1) + s.length := by
  intro s
  induction s with
  | nil => simp [insertAround]
  | cons c rest ih =>
    simp only [insertAround, List.length_append, List.length_cons, ih]
    ring

/-- C10: for an addon whose `version` is the empty string and whose `url`
is non-empty, the fetch line is not the URL unchanged: because Python's
`str.replace` with an empty search string inserts the replacement at every
gap, the identifier reference is inserted before every character of the URL
and once after its last character. -/
theorem claim_C10_thm (a : Addon) (hv : a.version = []) (_hu : a.url ≠ []) :
    wgetLine a = "        ".toList ++ insertAround (version_string a) a.url ∧
      wgetLine a ≠ "        ".toList ++ a.url := by
  have hrepl : replaceAll a.version (version_string a) a.url
      = insertAround (version_string a) a.url := by
    rw [hv]
    exact replaceAllAux_nil_old _ _ _ (Nat.lt_succ_self _)
  have heq : wgetLine a = "        ".toList ++ insertAround (version_string a) a.url := by
    rw [wgetLine, hrepl]
  refine ⟨heq, ?_⟩
  intro hbad
  rw [heq] at hbad
  have hlen := congrArg List.length hbad
  rw [List.length_append, List.length_append, insertAround_length] at hlen
  have hvs : 0 < (version_string a).length := by
    simp [version_string]
  have h1 : (version_string a).length * (a.url.length + 1) + a.url.length
      = a.url.length := Nat.add_left_cancel hlen
  have h2 : (version_string a).length * (a.url.length + 1) = 0 :=
    add_left_eq_self.mp h1
  rcases Nat.mul_eq_zero.mp h2 with h3 | h3
  · omega
  · omega

/-- C10 witness: a concrete addon with empty version and two-character URL. -/
theorem claim_C10_thm_witness :
    ({ name := "p".toList, url := "ab".toList } : Addon).version = [] ∧
      ({ name := "p".toList, url := "ab".toList } : Addon).url ≠ [] ∧
      (wgetLine { name := "p".toList, url := "ab".toList }
          = "        ".toList
            ++ insertAround (version_string { name := "p".toList, url := "ab".toList })
                ("ab".toList) ∧
        wgetLine { name := "p".toList, url := "ab".toList }
          ≠ "        ".toList ++ "ab".toList) :=
  ⟨rfl, by decide, claim_C10_thm _ rfl (by decide)⟩

/-! ## Addon Resolver (`fill_addons_details`, `add_if_not_exists`)

`fill_addons_details` iterates over `addons` with Python's `for` iterator,
which yields `addons[i]` for `i = 0, 1, ...` against the CURRENT list while
the body mutates that list: a not-found addon is removed in place
(`addons.remove(addon)` deletes the first element structurally equal to it),
which shifts the following elements one slot left under the iterator.  The
resolver is modelled with an explicit index against the evolving list so
that this behaviour is preserved.  Recursion through `add_if_not_exists`
does not terminate on a cyclic catalog (nor does the Python), so every
function takes a fuel bound, decremented on every call; `none` means the
fuel ran out, and any `some` result is the value the Python computes. -/

/-- Python `list.remove(a)`: delete the first element equal to `a` (the
call sites always pass an element of the list). -/
def removeFirst (l : List Addon) (a : Addon) : List Addon :=
  match l with
  | [] => []
  | x :: xs => if x = a then xs else x :: removeFirst xs a

/-- Lines 353-359 plus the `addon.dependencies.append` calls of the
dependency loop: populate every metadata field from the catalog element and
append its declared dependencies. -/
def fillFields (a : Addon) (e : CatEntry) : Addon :=
  { a with
    date := e.date
    file := e.file
    hash := e.hash
    not_before_version := e.not_before_version
    status := e.status
    url := e.url
    version := e.version
    dependencies := a.dependencies ++ e.deps }

mutual

/-- `fill_addons_details(addons, xml_string)`: run the loop from index 0
with an empty `dependencies` accumulator, then `addons.extend(dependencies)`
and return `addons`. -/
def fill_addons_details (fuel : Nat) (cat : Catalog) (addons : List Addon) :
    Option (List Addon) :=
  match fuel with
  | 0 => none
  | f + 1 =>
    match fillLoop f cat addons 0 [] with
    | none => none
    | some (as, ds) => some (as ++ ds)

/-- The `for addon in addons` loop of `fill_addons_details`, at iterator
index `i` over the current (mutated) `addons`, with `deps` the
`dependencies` accumulator.  A not-found name removes the first equal
element (the following element is then skipped by the advancing iterator,
exactly as in Python); a found name fills the record in place and feeds its
declared dependencies through `add_if_not_exists`. -/
def fillLoop (fuel : Nat) (cat : Catalog) (addons : List Addon) (i : Nat)
    (deps : List Addon) : Option (List Addon × List Addon) :=
  match fuel with
  | 0 => none
  | f + 1 =>
    if h : i < addons.length then
      match lookupAddon cat (addons.get ⟨i, h⟩).name with
      | none => fillLoop f cat (removeFirst addons (addons.get ⟨i, h⟩)) (i + 1) deps
      | some e =>
        match processDeps f cat e.deps deps with
        | none => none
        | some deps2 =>
          fillLoop f cat (addons.set i (fillFields (addons.get ⟨i, h⟩) e)) (i + 1) deps2
    else
      some (addons, deps)

/-- The `for transitive_addon_tag in transitive_addons_list_tag` loop:
feed each declared dependency name through `add_if_not_exists`. -/
def processDeps (fuel : Nat) (cat : Catalog) (ds : List Dependency)
    (deps : List Addon) : Option (List Addon) :=
  match fuel with
  | 0 => none
  | f + 1 =>
    match ds with
    | [] => some deps
    | d :: rest =>
      match add_if_not_exists f cat deps d.id with
      | none => none
      | some deps2 => processDeps f cat rest deps2

/-- `add_if_not_exists(addons, dependency_name, xml_string)`: when no
record of that name is in the accumulator, recursively resolve a bare
record and extend the accumulator with whatever that yields. -/
def add_if_not_exists (fuel : Nat) (cat : Catalog) (deps : List Addon)
    (n : Str) : Option (List Addon) :=
  match fuel with
  | 0 => none
  | f + 1 =>
    if deps.any (fun x => decide (x.name = n)) then some deps
    else
      match fill_addons_details f cat [{ name := n }] with
      | none => none
      | some res => some (deps ++ res)

end

/-! ## Claims about the Addon Resolver -/

/-- Catalog with a dependency diamond: `a` depends on `b` and `d`, each of
which depends on `c`. -/
def diamondCatalog : Catalog :=
  [ { name := "a".toList, version := "1".toList,
      deps := [{ id := "b".toList }, { id := "d".toList }] }
  , { name := "b".toList, version := "1".toList, deps := [{ id := "c".toList }] }
  , { name := "d".toList, version := "1".toList, deps := [{ id := "c".toList }] }
  , { name := "c".toList, version := "1".toList } ]

/-- C1 (code bug): resolving the single seed `a` against the diamond
catalog produces the record for `c` twice - `add_if_not_exists` consults
only the accumulator of the recursion level it runs at, so the nested
resolution of `d` re-resolves `c` although a record named `c` is already in
the output.  The result therefore violates the no-duplication invariant the
claim states (and the purpose the name `add_if_not_exists` documents). -/
theorem claim_C1_thm :
    fill_addons_details 32 diamondCatalog [{ name := "a".toList }]
        = some
          [ { name := "a".toList, version := "1".toList,
              dependencies := [{ id := "b".toList }, { id := "d".toList }] }
          , { name := "b".toList, version := "1".toList,
              dependencies := [{ id := "c".toList }] }
          , { name := "c".toList, version := "1".toList }
          , { name := "d".toList, version := "1".toList,
              dependencies := [{ id := "c".toList }] }
          , { name := "c".toList, version := "1".toList } ] ∧
      ¬ List.Pairwise (fun x y : Addon => x.name ≠ y.name)
          [ { name := "a".toList, version := "1".toList,
              dependencies := [{ id := "b".toList }, { id := "d".toList }] }
          , { name := "b".toList, version := "1".toList,
              dependencies := [{ id := "c".toList }] }
          , { name := "c".toList, version := "1".toList }
          , { name := "d".toList, version := "1".toList,
              dependencies := [{ id := "c".toList }] }
          , { name := "c".toList, version := "1".toList } ] := by
  constructor
  · decide
  · decide

/-- Catalog containing only the addon `real` (with a version). -/
def realOnlyCatalog : Catalog :=
  [ { name := "real".toList, version := "9.9".toList } ]

/-- C4 (code bug): resolving `["bogus", "real"]` against a catalog that
contains only `real` removes `bogus` while iterating, which shifts `real`
under the advancing iterator so it is never processed: the output is the
BARE record `real` (empty version), not the enriched record the claim
requires.  The catalog does hold the metadata (`version = "9.9"`), so the
record's emptiness is a skip, not a lookup failure. -/
theorem claim_C4_thm :
    fill_addons_details 10 realOnlyCatalog
        [{ name := "bogus".toList }, { name := "real".toList }]
        = some [{ name := "real".toList }] ∧
      lookupAddon realOnlyCatalog ("real".toList)
        = some { name := "real".toList, version := "9.9".toList } ∧
      ({ name := "real".toList } : Addon).version = [] := by
  refine ⟨by decide, by decide, rfl⟩

/-! ## Closure completeness (C7) -/

/-- Every `DependencyRef` recorded in `r` is witnessed by a record (by name)
in `D`, or its name is absent from the catalog. -/
def DepClosed (cat : Catalog) (D : List Addon) (r : Addon) : Prop :=
  ∀ d ∈ r.dependencies, (∃ x ∈ D, x.name = d.id) ∨ lookupAddon cat d.id = none

theorem depClosed_mono {cat : Catalog} {D D2 : List Addon} {r : Addon}
    (hsub : ∀ x ∈ D, x ∈ D2) (h : DepClosed cat D r) : DepClosed cat D2 r := by
  intro d hd
  rcases h d hd with ⟨x, hx, hxn⟩ | hnone
  · exact Or.inl ⟨x, hsub x hx, hxn⟩
  · exact Or.inr hnone

theorem mem_removeFirst {l : List Addon} {a x : Addon}
    (h : x ∈ removeFirst l a) : x ∈ l := by
  induction l with
  | nil => simp [removeFirst] at h
  | cons y ys ih =>
    unfold removeFirst at h
    split at h
    · exact List.mem_cons_of_mem y h
    · rcases List.mem_cons.mp h with rfl | hm
      · exact List.mem_cons_self x ys
      · exact List.mem_cons_of_mem y (ih hm)

/-- Loop invariant: every record in the addons list and in the accumulator
is dependency-closed with respect to the accumulator. -/
def GoodState (cat : Catalog) (A D : List Addon) : Prop :=
  (∀ r ∈ A, DepClosed cat D r) ∧ (∀ r ∈ D, DepClosed cat D r)

/-- A successful single-name resolution whose name is in the catalog leaves
a record of that name in the result (or the name is simply absent). -/
theorem fill_singleton_name (f : Nat) (cat : Catalog) (n : Str)
    (res : List Addon)
    (h : fill_addons_details f cat [{ name := n }] = some res) :
    lookupAddon cat n = none ∨ ∃ x ∈ res, x.name = n := by
  match f with
  | 0 => simp [fill_addons_details] at h
  | f + 1 =>
    simp only [fill_addons_details] at h
    cases hp : fillLoop f cat [{ name := n }] 0 [] with
    | none => rw [hp] at h; simp at h
    | some p =>
      obtain ⟨as, ds⟩ := p
      rw [hp] at h
      simp only [Option.some.injEq] at h
      subst h
      match f with
      | 0 => simp [fillLoop] at hp
      | f + 1 =>
        simp only [fillLoop] at hp
        rw [dif_pos (by simp)] at hp
        simp only [List.get] at hp
        split at hp
        · rename_i hlk
          exact Or.inl hlk
        · rename_i e hlk
          split at hp
          · simp at hp
          · rename_i deps2 hq
            refine Or.inr ?_
            match f with
            | 0 => simp [fillLoop] at hp
            | f + 1 =>
              simp only [fillLoop] at hp
              rw [dif_neg (by simp)] at hp
              simp only [Option.some.injEq, Prod.mk.injEq] at hp
              obtain ⟨has, hds⟩ := hp
              subst has
              exact ⟨fillFields { name := n } e,
                List.mem_append_left _ (List.mem_singleton_self _), rfl⟩

/-- Mutual invariant of the resolver, proved by induction on the fuel:
(1) `fill_addons_details` returns a dependency-closed list when every seed
record is dependency-closed w.r.t. the empty accumulator;
(2) `fillLoop` preserves `GoodState` and only extends the accumulator;
(3) `processDeps` preserves closure, only extends the accumulator, and
leaves every processed dependency witnessed or catalog-absent;
(4) `add_if_not_exists` likewise, for a single name. -/
theorem resolver_invariant : ∀ fuel : Nat,
    (∀ (cat : Catalog) (seed out : List Addon),
      (∀ r ∈ seed, DepClosed cat [] r) →
      fill_addons_details fuel cat seed = some out →
      ∀ r ∈ out, DepClosed cat out r) ∧
    (∀ (cat : Catalog) (A : List Addon) (i : Nat) (D A2 D2 : List Addon),
      GoodState cat A D →
      fillLoop fuel cat A i D = some (A2, D2) →
      GoodState cat A2 D2 ∧ ∀ x ∈ D, x ∈ D2) ∧
    (∀ (cat : Catalog) (ds : List Dependency) (D D2 : List Addon),
      (∀ r ∈ D, DepClosed cat D r) →
      processDeps fuel cat ds D = some D2 →
      (∀ r ∈ D2, DepClosed cat D2 r) ∧ (∀ x ∈ D, x ∈ D2) ∧
        ∀ d ∈ ds, (∃ x ∈ D2, x.name = d.id) ∨ lookupAddon cat d.id = none) ∧
    (∀ (cat : Catalog) (D : List Addon) (n : Str) (D2 : List Addon),
      (∀ r ∈ D, DepClosed cat D r) →
      add_if_not_exists fuel cat D n = some D2 →
      (∀ r ∈ D2, DepClosed cat D2 r) ∧ (∀ x ∈ D, x ∈ D2) ∧
        ((∃ x ∈ D2, x.name = n) ∨ lookupAddon cat n = none)) := by
  intro fuel
  induction fuel with
  | zero =>
    refine ⟨?_, ?_, ?_, ?_⟩
    · intro cat seed out _ h; simp [fill_addons_details] at h
    · intro cat A i D A2 D2 _ h; simp [fillLoop] at h
    · intro cat ds D D2 _ h; simp [processDeps] at h
    · intro cat D n D2 _ h; simp [add_if_not_exists] at h
  | succ f ih =>
    obtain ⟨ihFill, ihLoop, ihProc, ihAddIf⟩ := ih
    refine ⟨?_, ?_, ?_, ?_⟩
    -- (1) fill_addons_details
    · intro cat seed out hseed h
      simp only [fill_addons_details] at h
      cases hp : fillLoop f cat seed 0 [] with
      | none => rw [hp] at h; simp at h
      | some p =>
        obtain ⟨as, ds⟩ := p
        rw [hp] at h
        simp only [Option.some.injEq] at h
        subst h
        have hgs0 : GoodState cat seed [] :=
          ⟨hseed, by intro r hr; cases hr⟩
        obtain ⟨⟨hA, hD⟩, _⟩ := ihLoop cat seed 0 [] as ds hgs0 hp
        intro r hr
        rcases List.mem_append.mp hr with hra | hrd
        · exact depClosed_mono (fun x hx => List.mem_append_right as hx) (hA r hra)
        · exact depClosed_mono (fun x hx => List.mem_append_right as hx) (hD r hrd)
    -- (2) fillLoop
    · intro cat A i D A2 D2 hgs h
      simp only [fillLoop] at h
      split at h
      · rename_i hil
        split at h
        · rename_i hlk
          have hgs2 : GoodState cat (removeFirst A (A.get ⟨i, hil⟩)) D :=
            ⟨fun r hr => hgs.1 r (mem_removeFirst hr), hgs.2⟩
          exact ihLoop cat _ (i + 1) D A2 D2 hgs2 h
        · rename_i e hlk
          split at h
          · simp at h
          · rename_i deps2 hq
            obtain ⟨hD2good, hDsub, hdeps⟩ := ihProc cat e.deps D deps2 hgs.2 hq
            have hgs2 : GoodState cat (A.set i (fillFields (A.get ⟨i, hil⟩) e)) deps2 := by
              constructor
              · intro r hr
                rcases List.mem_or_eq_of_mem_set hr with hrA | rfl
                · exact depClosed_mono hDsub (hgs.1 r hrA)
                · intro d hd
                  rcases List.mem_append.mp hd with hda | hde
                  · exact depClosed_mono hDsub
                      (hgs.1 _ (List.get_mem A i hil)) d hda
                  · exact hdeps d hde
              · exact hD2good
            obtain ⟨hgs3, hsub3⟩ := ihLoop cat _ (i + 1) deps2 A2 D2 hgs2 h
            exact ⟨hgs3, fun x hx => hsub3 x (hDsub x hx)⟩
      · rename_i hil
        simp only [Option.some.injEq, Prod.mk.injEq] at h
        obtain ⟨hA2, hD2⟩ := h
        subst hA2; subst hD2
        exact ⟨hgs, fun x hx => hx⟩
    -- (3) processDeps
    · intro cat ds D D2 hDg h
      cases ds with
      | nil =>
        simp only [processDeps, Option.some.injEq] at h
        subst h
        exact ⟨hDg, fun x hx => hx, by intro d hd; cases hd⟩
      | cons d rest =>
        simp only [processDeps] at h
        cases haie : add_if_not_exists f cat D d.id with
        | none => rw [haie] at h; simp at h
        | some D1 =>
          rw [haie] at h
          obtain ⟨hD1g, hsubD1, hwit⟩ := ihAddIf cat D d.id D1 hDg haie
          obtain ⟨hD2g, hsubD2, hrest⟩ := ihProc cat rest D1 D2 hD1g h
          refine ⟨hD2g, fun x hx => hsubD2 x (hsubD1 x hx), ?_⟩
          intro d2 hd2
          rcases List.mem_cons.mp hd2 with rfl | hm
          · rcases hwit with ⟨x, hx, hxn⟩ | hnone
            · exact Or.inl ⟨x, hsubD2 x hx, hxn⟩
            · exact Or.inr hnone
          · exact hrest d2 hm
    -- (4) add_if_not_exists
    · intro cat D n D2 hDg h
      simp only [add_if_not_exists] at h
      split at h
      · rename_i hany
        simp only [Option.some.injEq] at h
        subst h
        obtain ⟨x, hx, hxd⟩ := List.any_eq_true.mp hany
        exact ⟨hDg, fun x hx => hx, Or.inl ⟨x, hx, of_decide_eq_true hxd⟩⟩
      · rename_i hany
        cases hfd : fill_addons_details f cat [{ name := n }] with
        | none => rw [hfd] at h; simp at h
        | some res =>
          rw [hfd] at h
          simp only [Option.some.injEq] at h
          subst h
          have hresg : ∀ r ∈ res, DepClosed cat res r := by
            refine ihFill cat [{ name := n }] res ?_ hfd
            intro r hr
            rcases List.mem_singleton.mp hr with rfl
            intro d hd
            cases hd
          refine ⟨?_, fun x hx => List.mem_append_left res hx, ?_⟩
          · intro r hr
            rcases List.mem_append.mp hr with hrD | hrres
            · exact depClosed_mono (fun x hx => List.mem_append_left res hx) (hDg r hrD)
            · exact depClosed_mono (fun x hx => List.mem_append_right D hx) (hresg r hrres)
          · rcases fill_singleton_name f cat n res hfd with hnone | ⟨x, hx, hxn⟩
            · exact Or.inr hnone
            · exact Or.inl ⟨x, List.mem_append_right D hx, hxn⟩

/-- C7: for every seed of bare requested records and every catalog, if
resolution terminates then every `DependencyRef` recorded in any record of
the output is either witnessed by some output record of that name, or its
name is absent from the catalog (no record, no error). -/
theorem claim_C7_thm (fuel : Nat) (cat : Catalog) (seed out : List Addon)
    (hbare : ∀ a ∈ seed, a.dependencies = [])
    (h : fill_addons_details fuel cat seed = some out) :
    ∀ r ∈ out, ∀ d ∈ r.dependencies,
      (∃ x ∈ out, x.name = d.id) ∨ lookupAddon cat d.id = none := by
  have hseed : ∀ r ∈ seed, DepClosed cat [] r := by
    intro r hr d hd
    rw [hbare r hr] at hd
    cases hd
  exact (resolver_invariant fuel).1 cat seed out hseed h

/-- C7 witness: the dependency fan-out scenario of the spec - seed `[a]`
against a catalog where `a` depends on `b` - instantiates the theorem. -/
theorem claim_C7_thm_witness :
    (∀ a ∈ ([{ name := "a".toList }] : List Addon), a.dependencies = []) ∧
      ∀ r ∈
        ([ { name := "a".toList, version := "1.0".toList,
             dependencies := [{ id := "b".toList, version := "1.2".toList }] }
         , { name := "b".toList, version := "2.0".toList } ] : List Addon),
        ∀ d ∈ r.dependencies,
          (∃ x ∈
            ([ { name := "a".toList, version := "1.0".toList,
                 dependencies := [{ id := "b".toList, version := "1.2".toList }] }
             , { name := "b".toList, version := "2.0".toList } ] : List Addon),
              x.name = d.id) ∨
            lookupAddon
              [ { name := "a".toList, version := "1.0".toList,
                  deps := [{ id := "b".toList, version := "1.2".toList }] }
              , { name := "b".toList, version := "2.0".toList } ] d.id = none :=
  ⟨by decide,
    claim_C7_thm 16
      [ { name := "a".toList, version := "1.0".toList,
          deps := [{ id := "b".toList, version := "1.2".toList }] }
      , { name := "b".toList, version := "2.0".toList } ]
      [{ name := "a".toList }] _ (by decide) (by decide)⟩
